import Mathlib

/-!
Verification of the Salesforce-Search-Helper browser extension's
cross-context coordination layer, as a shallow embedding of the
JavaScript sources (`src/content.js`, `src/background.js` and the
unnamed background-worker revisions) in Lean 4.

JavaScript strings are modelled by `String` (identifiers and labels in
this code are ASCII, where JS UTF-16 units and Lean code points agree);
JS string helpers (`toLowerCase`, `trim`, `includes`, `substring`,
`endsWith`, numeric `toString`) are embedded as executable functions on
the character list of a `String`.  JS `undefined`/`null` are modelled by
`Option`, and JS truthiness tests on strings check for `""` explicitly.
-/

namespace SfSearch

/-- JS `s.toLowerCase()` (character-wise lowering; exact on ASCII data). -/
def jsToLower (s : String) : String := ⟨s.data.map Char.toLower⟩

/-- JS `s.trim()`: drop whitespace from both ends. -/
def jsTrim (s : String) : String :=
  ⟨((s.data.dropWhile Char.isWhitespace).reverse.dropWhile Char.isWhitespace).reverse⟩

/-- Helper for `strIncludes`: does `needle` occur as a contiguous run of `hay`? -/
def listIncludes (needle : List Char) : List Char → Bool
  | [] => needle.isEmpty
  | c :: rest => needle.isPrefixOf (c :: rest) || listIncludes needle rest

/-- JS `hay.includes(needle)`. -/
def strIncludes (hay needle : String) : Bool := listIncludes needle.data hay.data

/-- JS `s.substring(0, n)` (negative `n` clamps to `0`, matching `Nat` subtraction
at every call site, and `n` past the end clamps to the length). -/
def jsSubstringTo (s : String) (n : Nat) : String := ⟨s.data.take n⟩

/-- JS `s.endsWith(t)`. -/
def strEndsWith (s suffixStr : String) : Bool := List.isSuffixOf suffixStr.data s.data

/-- Drop the last `n` characters of `s`. -/
def strDropRight (s : String) (n : Nat) : String := ⟨s.data.take (s.data.length - n)⟩

/-- JS `opt || dflt` for an optional string: `undefined`/`null`/`""` fall back. -/
def jsOrElse (o : Option String) (dflt : String) : String :=
  match o with
  | some s => if s == "" then dflt else s
  | none => dflt

/-- JS `arr.join(sep)`. -/
def jsJoin (sep : String) : List String → String
  | [] => ""
  | [x] => x
  | x :: y :: rest => x ++ sep ++ jsJoin sep (y :: rest)

/-- The decimal digit character for `n % 10`. -/
def digitChar (n : Nat) : Char := Char.ofNat (48 + n % 10)

/-- Decimal digits of `n`, least-significant first. -/
def natDigitsRev (n : Nat) : List Char :=
  if h : n < 10 then [digitChar n]
  else digitChar (n % 10) :: natDigitsRev (n / 10)
decreasing_by exact Nat.div_lt_self (by omega) (by omega)

/-- JS `n.toString()` for a whole number (exact below `2^53`). -/
def jsNatToString (n : Nat) : String := ⟨(natDigitsRev n).reverse⟩

/-- `hostname.split(".")` (never produces the empty list). -/
def splitOnDotAux (acc : List Char) : List Char → List String
  | [] => [⟨acc.reverse⟩]
  | c :: rest =>
    if c = '.' then ⟨acc.reverse⟩ :: splitOnDotAux [] rest
    else splitOnDotAux (c :: acc) rest

/-- JS `s.split(".")`. -/
def splitOnDot (s : String) : List String := splitOnDotAux [] s.data

/-- JS `s.replace(pat, rep)` for a plain-string pattern: first occurrence only. -/
def replaceFirstL (pat rep : List Char) : List Char → List Char
  | [] => []
  | c :: rest =>
    if pat.isPrefixOf (c :: rest) then rep ++ (c :: rest).drop pat.length
    else c :: replaceFirstL pat rep rest

/-- JS `s.replace(pat, rep)` on strings (plain-string pattern). -/
def strReplaceFirst (s pat rep : String) : String := ⟨replaceFirstL pat.data rep.data s.data⟩

-- ---------------------------------------------------------------------------
-- §4.3 Quick Find filter (content.js, `onQuickFindInput`)
-- ---------------------------------------------------------------------------

/-- Snapshot of one table row as read by `onQuickFindInput`: the first three
cell texts and the `dataset.picklistText` attribute (absent before a fetch). -/
structure FilterRow where
  fieldLabel : String
  apiName : String
  fieldType : String
  picklistText : Option String
deriving DecidableEq

/-- `onQuickFindInput` from content.js: is the row left visible
(`row.style.display = ""`) for the raw query-input value `query`? -/
def quickFindRowVisible (query : String) (row : FilterRow) : Bool :=
  let q := jsToLower (jsTrim query)
  let fieldLabel := jsToLower row.fieldLabel
  let apiName := jsToLower row.apiName
  let fieldType := jsToLower row.fieldType
  let picklistText :=
    match row.picklistText with
    | some s => if s == "" then "" else jsToLower s
    | none => ""
  let combined := fieldLabel ++ " " ++ picklistText
  q == "" || strIncludes combined q || strIncludes apiName q || strIncludes fieldType q

/-- Case-insensitive substring test, the reading used by the specification. -/
def ciIncludes (hay needle : String) : Bool := strIncludes (jsToLower hay) (jsToLower needle)

/-- The filter predicate exactly as claim C2 words it: visible iff the query is
empty, or is a case-insensitive substring of the concatenation of the label and
the enumerated-value text, or of the raw identifier, or of the type text. -/
def claimFilterVisible (query : String) (row : FilterRow) : Bool :=
  query == ""
    || ciIncludes (row.fieldLabel ++ row.picklistText.getD "") query
    || ciIncludes row.apiName query
    || ciIncludes row.fieldType query

-- ---------------------------------------------------------------------------
-- Custom-field suffix stripping (background.js / unnamed part_001:
-- `fieldApiName.replace(/__c$/, "")`)
-- ---------------------------------------------------------------------------

/-- `fieldApiName.replace(/__c$/, "")`: remove one trailing `__c` if present. -/
def stripSuffix (s : String) : String :=
  if strEndsWith s "__c" then strDropRight s 3 else s

-- ---------------------------------------------------------------------------
-- §4.2 Privileged broker: domain ladder (unnamed part_001,
-- `getAllPossibleDomains` / `getMySalesforceDomain`)
-- ---------------------------------------------------------------------------

/-- A request origin as decomposed by JS `new URL(origin)`: `protocol` carries
the trailing colon (`"https:"`) and `hostname` has no slashes, so the original
origin string is `protocol ++ "//" ++ hostname`. -/
structure Origin where
  protocol : String
  hostname : String
deriving DecidableEq

/-- The origin back as the string the source passes around. -/
def Origin.str (o : Origin) : String := o.protocol ++ "//" ++ o.hostname

/-- Attempt the regex `/([^-]+)--([^.]+)/` at the start of `l`.  `[^-]+` is a
maximal nonempty run of non-dash characters (greedy matching cannot backtrack
past a dash), then literal `--`, then a maximal nonempty run of non-dot
characters.  Returns the two capture groups. -/
def sandboxMatch2At (l : List Char) : Option (List Char × List Char) :=
  let run1 := l.takeWhile (fun c => c ≠ '-')
  if run1.isEmpty then none
  else
    match l.dropWhile (fun c => c ≠ '-') with
    | '-' :: '-' :: rest =>
      let run2 := rest.takeWhile (fun c => c ≠ '.')
      if run2.isEmpty then none else some (run1, run2)
    | _ => none

/-- First match of `/([^-]+)--([^.]+)/`: scan start positions left to right. -/
def findSandboxMatch2 : List Char → Option (List Char × List Char)
  | [] => none
  | c :: rest =>
    match sandboxMatch2At (c :: rest) with
    | some r => some r
    | none => findSandboxMatch2 rest

/-- Attempt the regex `/([^-]+)--([^.]+)\.(.*)/` at the start of `l`; the third
group takes everything after the dot. -/
def sandboxMatch3At (l : List Char) : Option (List Char × List Char × List Char) :=
  let run1 := l.takeWhile (fun c => c ≠ '-')
  if run1.isEmpty then none
  else
    match l.dropWhile (fun c => c ≠ '-') with
    | '-' :: '-' :: rest =>
      let run2 := rest.takeWhile (fun c => c ≠ '.')
      if run2.isEmpty then none
      else
        match rest.dropWhile (fun c => c ≠ '.') with
        | '.' :: tailPart => some (run1, run2, tailPart)
        | _ => none
    | _ => none

/-- First match of `/([^-]+)--([^.]+)\.(.*)/`. -/
def findSandboxMatch3 : List Char → Option (List Char × List Char × List Char)
  | [] => none
  | c :: rest =>
    match sandboxMatch3At (c :: rest) with
    | some r => some r
    | none => findSandboxMatch3 rest

/-- Case-insensitive check of one alternative of `(cs\d+|cs|na\d+|gs0|eu\d+)`
followed by a literal dot, for the part of the hostname after a leading dot.
Returns the capture (the original-case characters from the hostname). -/
def instAltAt (l : List Char) : Option (List Char) :=
  match l with
  | c1 :: c2 :: rest =>
    let lo1 := Char.toLower c1
    let lo2 := Char.toLower c2
    let digits := rest.takeWhile Char.isDigit
    let afterDigits := rest.dropWhile Char.isDigit
    if lo1 = 'c' ∧ lo2 = 's' ∧ ¬digits.isEmpty ∧ afterDigits.headD ' ' = '.' then
      some (c1 :: c2 :: digits)
    else if lo1 = 'c' ∧ lo2 = 's' ∧ rest.headD ' ' = '.' then
      some [c1, c2]
    else if lo1 = 'n' ∧ lo2 = 'a' ∧ ¬digits.isEmpty ∧ afterDigits.headD ' ' = '.' then
      some (c1 :: c2 :: digits)
    else if lo1 = 'g' ∧ lo2 = 's' ∧ rest.headD ' ' = '0' ∧ (rest.drop 1).headD ' ' = '.' then
      some [c1, c2, rest.headD ' ']
    else if lo1 = 'e' ∧ lo2 = 'u' ∧ ¬digits.isEmpty ∧ afterDigits.headD ' ' = '.' then
      some (c1 :: c2 :: digits)
    else none
  | _ => none

/-- First match of `/\.(cs\d+|cs|na\d+|gs0|eu\d+)\./i` over the hostname. -/
def findInstMatch : List Char → Option (List Char)
  | [] => none
  | c :: rest =>
    if c = '.' then
      match instAltAt rest with
      | some cap => some cap
      | none => findInstMatch rest
    else findInstMatch rest

/-- `getMySalesforceDomain`'s fallthrough: convert known front-end suffixes of
the origin string to the API-serving suffix (`String.replace`, first match). -/
def lightningToMyDomain (o : Origin) : String :=
  if strIncludes o.hostname "lightning.force.com" then
    strReplaceFirst (Origin.str o) "lightning.force.com" "my.salesforce.com"
  else if strIncludes o.hostname "salesforce-setup.com" then
    strReplaceFirst (Origin.str o) "salesforce-setup.com" "my.salesforce.com"
  else Origin.str o

/-- `getMySalesforceDomain` (unnamed part_001): deterministic transform of the
origin to its plausible API-serving domain. -/
def getMySalesforceDomain (o : Origin) : String :=
  match findSandboxMatch3 o.hostname.data with
  | some (orgName, sandboxName, restOfDomain) =>
    if strIncludes ⟨restOfDomain⟩ "lightning.force.com" then
      o.protocol ++ "//" ++ (⟨orgName⟩ : String) ++ "--" ++ (⟨sandboxName⟩ : String)
        ++ ".my.salesforce.com"
    else lightningToMyDomain o
  | none => lightningToMyDomain o

/-- `[...new Set(domains)]`: de-duplicate keeping first occurrences, in order. -/
def dedupFirstAux (seen : List String) : List String → List String
  | [] => []
  | x :: rest =>
    if x ∈ seen then dedupFirstAux seen rest
    else x :: dedupFirstAux (x :: seen) rest

/-- De-duplicate a list keeping the first occurrence of each element. -/
def dedupFirst (l : List String) : List String := dedupFirstAux [] l

/-- `getAllPossibleDomains` (unnamed part_001): the ordered, de-duplicated
candidate-domain ladder for credential resolution. -/
def getAllPossibleDomains (o : Origin) : List String :=
  let hostname := o.hostname
  let protocol := o.protocol
  let domainParts := splitOnDot hostname
  let instOpt := findInstMatch hostname.data
  let sbOpt := findSandboxMatch2 hostname.data
  let orgName : String :=
    match sbOpt with
    | some (org, _) => ⟨org⟩
    | none => domainParts.headD ""
  let domains :=
    [getMySalesforceDomain o, Origin.str o]
    ++ (match sbOpt with
        | some (_, sb) =>
          let sbS : String := ⟨sb⟩
          [protocol ++ "//" ++ orgName ++ "--" ++ sbS ++ ".my.salesforce.com",
           protocol ++ "//" ++ orgName ++ "--" ++ sbS ++ ".sandbox.my.salesforce.com"]
          ++ (match instOpt with
              | some inst =>
                [protocol ++ "//" ++ orgName ++ "--" ++ sbS ++ "." ++ (⟨inst⟩ : String)
                  ++ ".my.salesforce.com"]
              | none => [])
          ++ [protocol ++ "//test.salesforce.com",
              protocol ++ "//" ++ sbS ++ "." ++ orgName ++ ".my.salesforce.com"]
        | none => [])
    ++ [protocol ++ "//my.salesforce.com",
        protocol ++ "//login.salesforce.com",
        protocol ++ "//salesforce.com",
        protocol ++ "//cloudforce.com",
        protocol ++ "//sandbox.my.salesforce.com",
        protocol ++ "//test.salesforce.com"]
  dedupFirst domains

-- ---------------------------------------------------------------------------
-- §4.2 Privileged broker: credential resolution (unnamed part_001,
-- `getSessionCookie`) and picklist request resolution (`fetchPicklistValues`)
-- ---------------------------------------------------------------------------

/-- The credential store as the broker sees it: `chrome.cookies.get` by URL
for the reserved name `sid`, plus the enumerate-all fallback already filtered
to cookies named `sid` (`(domain, value)` pairs in store order). -/
structure CookieStore where
  get : String → Option String
  allSid : List (String × String)

/-- JS `cookie && cookie.value` for the result of a cookie lookup. -/
def cookieOk : Option String → Bool
  | some v => v != ""
  | none => false

/-- The broker's single piece of mutable state:
`global.lastSuccessfulCookieDomain`. -/
structure BrokerState where
  last : Option String
deriving DecidableEq

/-- The cookie-lookup loop over the candidate ladder: returns the domains
attempted in order, and the first `(domain, value)` whose lookup succeeded. -/
def tryDomainsA (store : CookieStore) : List String → List String × Option (String × String)
  | [] => ([], none)
  | d :: rest =>
    if cookieOk (store.get d) then ([d], some (d, (store.get d).getD ""))
    else (d :: (tryDomainsA store rest).1, (tryDomainsA store rest).2)

/-- Result of `getSessionCookie`: the resolved token (or `none`), the broker
state afterwards, and the list of ladder domains attempted. -/
structure CookieResolution where
  sid : Option String
  state : BrokerState
  attempts : List String
deriving DecidableEq

/-- `getSessionCookie` (unnamed part_001): walk the ladder; on failure fall
back to enumerating all `sid` cookies, preferring one whose domain is a
substring match (in either direction) of the origin's hostname, else the first;
record the successful domain in `global.lastSuccessfulCookieDomain`. -/
def getSessionCookieB (store : CookieStore) (o : Origin) (st : BrokerState) : CookieResolution :=
  match tryDomainsA store (getAllPossibleDomains o) with
  | (attempts, some (d, v)) => ⟨some v, ⟨some d⟩, attempts⟩
  | (attempts, none) =>
    match store.allSid with
    | [] => ⟨none, st, attempts⟩
    | c :: rest =>
      match (c :: rest).find?
          (fun c2 => strIncludes o.hostname c2.1 || strIncludes c2.1 o.hostname) with
      | some c2 => ⟨some c2.2, ⟨some ("https://" ++ c2.1)⟩, attempts⟩
      | none => ⟨some c.2, ⟨some ("https://" ++ c.1)⟩, attempts⟩

/-- One enumerated value of a picklist, as in describe / metadata payloads
(`{label: ...}` with the label possibly absent). -/
structure PicklistValueJs where
  label : Option String
deriving DecidableEq

/-- One field of an object-describe payload. -/
structure DescribeField where
  name : String
  picklistValues : Option (List PicklistValueJs)
deriving DecidableEq

/-- `valueSet.valueSetDefinition` of custom-field metadata. -/
structure ValueSetDefinition where
  value : Option (List PicklistValueJs)
deriving DecidableEq

/-- `Metadata.valueSet` of custom-field metadata. -/
structure ValueSet where
  valueSetDefinition : Option ValueSetDefinition
deriving DecidableEq

/-- The `Metadata` blob of a tooling-query CustomField record (the part the
picklist fetch navigates). -/
structure CFMetadata where
  valueSet : Option ValueSet
deriving DecidableEq

/-- One record of the tooling query `SELECT Metadata FROM CustomField ...`. -/
structure CFRecord where
  Metadata : Option CFMetadata
deriving DecidableEq

/-- The remote metadata API, as response oracles keyed by the query data:
`.ok` is a 2xx JSON payload, `.error` carries the message the broker's
catch-and-convert path would report for that call. -/
structure Net where
  describe : String → Except String (List DescribeField)
  toolingQuery : String → String → Except String (List CFRecord)

/-- A metadata request as sent by the page agent
(`{objectName, fieldApiName, origin, isStandard}`). -/
structure BrokerRequest where
  objectName : String
  fieldApiName : String
  origin : Origin
  isStandard : Bool

/-- The broker's reply on the message channel:
`{success:true, data:{picklistText}}` or `{success:false, error}`. -/
inductive PicklistOutcome
  | ok (picklistText : String)
  | err (error : String)
deriving DecidableEq

/-- A full run of `fetchPicklistValues`: the reply, the broker state
afterwards, and the URLs of the outbound HTTP calls it made, in order. -/
structure FetchRun where
  response : PicklistOutcome
  state : BrokerState
  calls : List String
deriving DecidableEq

/-- URL of the object-describe endpoint. -/
def describeUrl (apiOrigin objectName : String) : String :=
  apiOrigin ++ "/services/data/v56.0/sobjects/" ++ objectName ++ "/describe"

/-- URL of the tooling-query endpoint for the custom-field picklist query
(recorded without percent-encoding of the query string). -/
def toolingQueryUrl (apiOrigin queryFieldName objectName : String) : String :=
  apiOrigin ++ "/services/data/v56.0/tooling/query/?q=SELECT Metadata FROM CustomField WHERE DeveloperName = '"
    ++ queryFieldName ++ "' AND TableEnumOrId = '" ++ objectName ++ "'"

/-- The standard-field payload computation of `fetchPicklistValues`:
`data.fields.find(f => f.name.toLowerCase() === fieldApiName.toLowerCase())`,
then `field?.picklistValues?.map(v => (v.label || "").toLowerCase()).join(", ") || ""`. -/
def standardPicklistText (fields : List DescribeField) (fieldApiName : String) : String :=
  match fields.find? (fun f => jsToLower f.name == jsToLower fieldApiName) with
  | some f =>
    match f.picklistValues with
    | some vs => jsJoin ", " (vs.map (fun v => jsToLower (v.label.getD "")))
    | none => ""
  | none => ""

/-- The custom-field payload computation:
`data.records?.[0]?.Metadata?.valueSet?.valueSetDefinition?.value || []`,
labels lower-cased and joined. -/
def customPicklistText (records : List CFRecord) : String :=
  let values :=
    ((((records.head?.bind (·.Metadata)).bind (·.valueSet)).bind
      (·.valueSetDefinition)).bind (·.value)).getD []
  jsJoin ", " (values.map (fun v => jsToLower (v.label.getD "")))

/-- `fetchPicklistValues` (unnamed part_001): resolve the credential through
the ladder, pick the API origin (`global.lastSuccessfulCookieDomain ||
getMySalesforceDomain(origin)`), then one describe or tooling-query call. -/
def fetchPicklistValuesB (store : CookieStore) (net : Net) (req : BrokerRequest)
    (st : BrokerState) : FetchRun :=
  let res := getSessionCookieB store req.origin st
  match res.sid with
  | none => ⟨.err "No session cookie found.", res.state, []⟩
  | some sid =>
    if sid == "" then ⟨.err "No session cookie found.", res.state, []⟩
    else
      let apiOrigin := jsOrElse res.state.last (getMySalesforceDomain req.origin)
      if req.isStandard then
        let url := describeUrl apiOrigin req.objectName
        match net.describe req.objectName with
        | .ok fields => ⟨.ok (standardPicklistText fields req.fieldApiName), res.state, [url]⟩
        | .error e => ⟨.err e, res.state, [url]⟩
      else
        let queryFieldName := stripSuffix req.fieldApiName
        let url := toolingQueryUrl apiOrigin queryFieldName req.objectName
        match net.toolingQuery queryFieldName req.objectName with
        | .ok records => ⟨.ok (customPicklistText records), res.state, [url]⟩
        | .error e => ⟨.err e, res.state, [url]⟩

-- ---------------------------------------------------------------------------
-- §4.1 Page agent: idempotent row processing (content.js,
-- `processPicklistRows`)
-- ---------------------------------------------------------------------------

/-- One table row as `processPicklistRows` sees it: the `picklistFetched`
dataset marker, the cell texts (`innerText` of the `td`s, in order) and the
`dataset.picklistText` attribute. -/
structure TableRow where
  picklistFetched : Bool
  cells : List String
  picklistText : Option String
deriving DecidableEq

/-- A `fetchPicklistValues` message emitted for one row. -/
structure RowRequest where
  objectName : String
  fieldApiName : String
  isStandard : Bool
deriving DecidableEq

/-- The body of `processPicklistRows`' per-row callback: skip rows already
marked fetched or with fewer than three cells; dispatch a fetch for
picklist-typed rows; give other rows an empty picklist text; in both of the
last two cases mark the row fetched (synchronously, before any response). -/
def processRow (objectName : String) (row : TableRow) : TableRow × List RowRequest :=
  if row.picklistFetched then (row, [])
  else if row.cells.length < 3 then (row, [])
  else
    let fieldType := jsToLower (row.cells.getD 2 "")
    let fieldApiName := jsTrim (row.cells.getD 1 "")
    let isStandard := !strEndsWith fieldApiName "__c"
    if strIncludes fieldType "picklist" then
      ({ row with picklistFetched := true },
       [{ objectName := objectName, fieldApiName := fieldApiName, isStandard := isStandard }])
    else
      ({ row with picklistFetched := true, picklistText := some "" }, [])

/-- `processPicklistRows`: process every row of the table body, returning the
updated rows and the fetch requests dispatched, in row order. -/
def processPicklistRows (objectName : String) (rows : List TableRow) :
    List TableRow × List RowRequest :=
  (rows.map (fun r => (processRow objectName r).1),
   rows.flatMap (fun r => (processRow objectName r).2))

/-- Iterated row processing for a single row: total number of fetch requests
dispatched for it across `n` repeated row-added notifications. -/
def rowRequestCountSingle (objectName : String) : Nat → TableRow → Nat
  | 0, _ => 0
  | n + 1, row =>
    let (row', reqs) := processRow objectName row
    reqs.length + rowRequestCountSingle objectName n row'

/-- Total number of fetch requests dispatched for the row at index `i` across
`n` repeated invocations of `processPicklistRows` over the same table. -/
def rowRequestCount (objectName : String) : Nat → List TableRow → Nat → Nat
  | 0, _, _ => 0
  | n + 1, rows, i =>
    (match rows[i]? with
     | some r => ((processRow objectName r).2).length
     | none => 0)
    + rowRequestCount objectName n (processPicklistRows objectName rows).1 i

-- ---------------------------------------------------------------------------
-- Export collaborator: unique sheet names (content.js, `getUniqueSheetName`)
-- ---------------------------------------------------------------------------

/-- The candidate name built in iteration `suffix` of `getUniqueSheetName`'s
loop: `sheetName.substring(0, 31 - suffix.toString().length) + suffix`. -/
def candName (sheetName : String) (suffix : Nat) : String :=
  jsSubstringTo sheetName (31 - (jsNatToString suffix).length) ++ jsNatToString suffix

/-- Greatest length of a member of the list. -/
def maxStrLen (l : List String) : Nat := l.foldr (fun s acc => max s.length acc) 0

/-- The `while (existingNames.includes(uniqueName))` loop of
`getUniqueSheetName`, with an explicit iteration bound (`sheetFuel` below is
proven large enough that the bound is never the reason the loop stops). -/
def uniqueLoop (sheetName : String) (existingNames : List String) :
    Nat → String → Nat → String
  | 0, uniqueName, _ => uniqueName
  | fuel + 1, uniqueName, suffix =>
    if uniqueName ∈ existingNames then
      uniqueLoop sheetName existingNames fuel (candName sheetName suffix) (suffix + 1)
    else uniqueName

/-- Iteration bound for `uniqueLoop`: once the suffix exceeds
`10 ^ max 31 (maxStrLen existingNames)` its decimal form alone is longer than
every existing name, so the loop's guard must fail. -/
def sheetFuel (existingNames : List String) : Nat :=
  10 ^ max 31 (maxStrLen existingNames) + 2

/-- `getUniqueSheetName` (content.js). -/
def getUniqueSheetName (sheetName : String) (existingNames : List String) : String :=
  uniqueLoop sheetName existingNames (sheetFuel existingNames) sheetName 1

-- ---------------------------------------------------------------------------
-- §4.2 Privileged broker: field updates (unnamed part_001,
-- `updateFieldMetadata`) and the content-script categorization
-- (content.js, `getFieldCategory`)
-- ---------------------------------------------------------------------------

/-- The `Metadata` blob of a custom field as `updateFieldMetadata` reads it:
the keys it inspects or mutates, plus a stand-in for all remaining keys (which
a JSON clone preserves unchanged). -/
structure FieldMetadataJs where
  type : Option String
  valueSet : Option ValueSet
  description : Option String
  inlineHelpText : Option String
  otherKeys : List (String × String)
deriving DecidableEq

/-- A per-field update request: `Description` / `InlineHelpText` when present
(`none` models the key being absent, i.e. JS `undefined`). -/
structure UpdatedData where
  Description : Option String
  InlineHelpText : Option String
deriving DecidableEq

/-- The PATCH body `updateFieldMetadata` submits: either the direct partial
update carrying only the changed top-level properties, or the full cloned
metadata blob. -/
inductive UpdatePayload
  | direct (descriptionKey : Option String) (inlineHelpTextKey : Option String)
  | full (metadata : FieldMetadataJs)
deriving DecidableEq

/-- Is the payload the direct partial update? -/
def UpdatePayload.isDirect : UpdatePayload → Bool
  | .direct _ _ => true
  | .full _ => false

/-- The update-path decision and payload construction of `updateFieldMetadata`
(unnamed part_001): direct partial update iff
`['picklist','multipicklist'].includes(Metadata.type?.toLowerCase() || '') ||
!!Metadata.valueSet`; otherwise clone the metadata, mutate the description and
help-text keys when the update carries them, and submit the full blob. -/
def chooseUpdatePayload (meta : FieldMetadataJs) (upd : UpdatedData) : UpdatePayload :=
  let fieldType := jsToLower (meta.type.getD "")
  let hasValueSet := meta.valueSet.isSome
  if fieldType == "picklist" || fieldType == "multipicklist" || hasValueSet then
    .direct upd.Description upd.InlineHelpText
  else
    .full { meta with
      description :=
        match upd.Description with
        | some v => some v
        | none => meta.description,
      inlineHelpText :=
        match upd.InlineHelpText with
        | some v => some v
        | none => meta.inlineHelpText }

/-- `getFieldCategory` (content.js bulk-update modal): the content script's
cosmetic categorization of field types, used only to show the
"Special Update" badge. -/
def getFieldCategory (fieldType : String) : String :=
  let type := jsToLower fieldType
  if type == "picklist" || type == "multipicklist" || type == "lookup"
      || type == "reference" || type == "master-detail" || type == "hierarchyid" then
    "picklist"
  else "standard"

-- ---------------------------------------------------------------------------
-- §4.2 Privileged broker: bulk update aggregation (unnamed part_001,
-- `bulkUpdateFields` handler / `processUpdates`)
-- ---------------------------------------------------------------------------

/-- One entry of the `results` array built by `processUpdates`. -/
structure FieldResult where
  fieldId : String
  fieldName : String
  success : Bool
  error : Option String
deriving DecidableEq

/-- The aggregate reply of the `bulkUpdateFields` handler. -/
inductive BulkResponse
  | allOk (message : String)
  | batchErrors (success : Bool) (error : String) (errorMessage : String)
      (formattedErrorMessage : String) (successCount : Nat) (failureCount : Nat)
deriving DecidableEq

/-- `successCount` of the reply, when the reply carries one. -/
def BulkResponse.successCountOf : BulkResponse → Option Nat
  | .allOk _ => none
  | .batchErrors _ _ _ _ s _ => some s

/-- `failureCount` of the reply, when the reply carries one. -/
def BulkResponse.failureCountOf : BulkResponse → Option Nat
  | .allOk _ => none
  | .batchErrors _ _ _ _ _ f => some f

/-- `formattedErrorMessage` of the reply, when the reply carries one. -/
def BulkResponse.formattedOf : BulkResponse → Option String
  | .allOk _ => none
  | .batchErrors _ _ _ fm _ _ => some fm

/-- The sequential per-field loop of `processUpdates`: each field's update is
attempted via `doUpdate` (modelling `updateFieldMetadata`'s outcome, with the
per-field `try/catch` folded into a failure outcome), and its result is
recorded regardless of the other fields' outcomes. -/
def runBulkLoop (doUpdate : String → UpdatedData → Bool × Option String)
    (nameMap : String → Option String) : List (String × UpdatedData) → List FieldResult
  | [] => []
  | (fieldId, upd) :: rest =>
    let r := doUpdate fieldId upd
    { fieldId := fieldId,
      fieldName := jsOrElse (nameMap fieldId) fieldId,
      success := r.1,
      error := r.2 } :: runBulkLoop doUpdate nameMap rest

/-- `failed.map((f, index) => `${index+1}. <strong>${name}</strong>: ${error}`).join('<br>')`. -/
def formatBulkErrors (failed : List FieldResult) : String :=
  jsJoin "<br>" (failed.enum.map (fun p =>
    jsNatToString (p.1 + 1) ++ ". <strong>" ++ p.2.fieldName ++ "</strong>: "
      ++ (p.2.error.getD "undefined")))

/-- The aggregate reply built from the results array (`totalFields` is
`Object.keys(updates).length`). -/
def bulkUpdateResponse (results : List FieldResult) (totalFields : Nat) : BulkResponse :=
  let succeeded := results.filter (fun r => r.success)
  let failed := results.filter (fun r => !r.success)
  if failed.length != 0 then
    .batchErrors (failed.length == 0)
      (jsNatToString failed.length ++ " of " ++ jsNatToString totalFields
        ++ " fields failed to update.")
      (jsJoin ";\n" (failed.map (fun f => f.fieldName ++ ": " ++ (f.error.getD "undefined"))))
      (formatBulkErrors failed)
      succeeded.length failed.length
  else .allOk ("Successfully updated " ++ jsNatToString succeeded.length ++ " fields.")

/-- The whole `bulkUpdateFields` handler: run every per-field update, then
aggregate.  Returns the per-field results (whose `success` entries are the
durably applied updates) and the reply sent on the channel. -/
def bulkUpdateFields (doUpdate : String → UpdatedData → Bool × Option String)
    (nameMap : String → Option String) (updates : List (String × UpdatedData)) :
    List FieldResult × BulkResponse :=
  let results := runBulkLoop doUpdate nameMap updates
  (results, bulkUpdateResponse results updates.length)

-- ---------------------------------------------------------------------------
-- Concrete environments used by the scenario theorems below
-- ---------------------------------------------------------------------------

/-- The sandbox-pattern origin of the specification's examples. -/
def sandboxOrigin : Origin := ⟨"https:", "acme--uat.lightning.force.com"⟩

/-- A credential store holding a `sid` token for every domain (so the first
ladder candidate succeeds). -/
def accountStore : CookieStore := ⟨fun _ => some "SESSIONTOKEN", []⟩

/-- A remote API whose `Account` describe payload has an `Industry` field with
enumerated values labelled `Banking` and `Retail`. -/
def accountNet : Net :=
  ⟨fun objectName =>
      if objectName == "Account" then
        .ok [⟨"Industry", some [⟨some "Banking"⟩, ⟨some "Retail"⟩]⟩]
      else .error "no describe payload",
   fun _ _ => .error "no tooling payload"⟩

/-- The scenario request `{object:"Account", field:"Industry", isStandard:true}`. -/
def accountReq : BrokerRequest := ⟨"Account", "Industry", sandboxOrigin, true⟩

/-- A custom-field request (`isStandard:false`), exercising the broker's
tooling-query branch. -/
def customReq : BrokerRequest := ⟨"Account", "Status__c", sandboxOrigin, false⟩

/-- A remote API that is never reached. -/
def emptyNet : Net := ⟨fun _ => .error "unreachable", fun _ _ => .error "unreachable"⟩

/-- A credential store whose only `sid` cookie lives on the sandbox-variant
domain, i.e. not on the ladder's first candidate. -/
def sandboxOnlyStore : CookieStore :=
  ⟨fun d => if d == "https://acme--uat.sandbox.my.salesforce.com" then some "SANDBOXTOKEN"
            else none,
   []⟩

/-- A per-field updater where field `A`'s update fails and every other
field's update succeeds. -/
def demoUpdater (fieldId : String) (_ : UpdatedData) : Bool × Option String :=
  if fieldId == "A" then (false, some "FIELD_INTEGRITY_EXCEPTION") else (true, none)

end SfSearch

namespace SfSearch

theorem jsToLower_append (a b : String) :
    jsToLower (a ++ b) = jsToLower a ++ jsToLower b := by
  apply String.ext
  simp [jsToLower, String.data_append]

theorem jsToLower_eq_empty (s : String) : jsToLower s = "" ↔ s = "" := by
  constructor
  · intro h
    have hd : (jsToLower s).data = [] := by rw [h]
    have : s.data.map Char.toLower = [] := hd
    apply String.ext
    exact List.map_eq_nil_iff.mp this
  · intro h; subst h; rfl

theorem stripSuffix_of_not_endsWith (s : String) (h : strEndsWith s "__c" = false) :
    stripSuffix s = s := by
  simp [stripSuffix, h]

theorem picklistText_truthy (o : Option String) :
    (match o with
     | some s => if s = "" then "" else jsToLower s
     | none => "") = jsToLower (o.getD "") := by
  match o with
  | none => rfl
  | some s =>
    by_cases hs : s = ""
    · subst hs; simp; rfl
    · simp [hs]

/-- C2 (counterexample): with label `ab`, enumerated-value text `cd`,
identifier `zz` and type `yy`, the query `bc` is a substring of the plain
concatenation `abcd`, so the claim's predicate shows the row; the code joins
label and enumerated-value text with a space (`ab cd`) and hides it. -/
theorem c2_filter_predicate_counterexample :
    claimFilterVisible "bc" ⟨"ab", "zz", "yy", some "cd"⟩ = true ∧
    quickFindRowVisible "bc" ⟨"ab", "zz", "yy", some "cd"⟩ = false := by
  decide

/-- C2 (amended): a row is visible iff the trimmed query is empty, or the
trimmed query is a case-insensitive substring of the label and enumerated-value
text joined by a single space, or of the raw identifier, or of the type text.
The predicate is a pure function of the query and the row snapshot, and the
empty query shows every row (the `jsTrim query = ""` disjunct). -/
theorem c2_filter_predicate (query : String) (row : FilterRow) :
    quickFindRowVisible query row = true ↔
      (jsTrim query = ""
        ∨ ciIncludes (row.fieldLabel ++ " " ++ row.picklistText.getD "") (jsTrim query) = true
        ∨ ciIncludes row.apiName (jsTrim query) = true
        ∨ ciIncludes row.fieldType (jsTrim query) = true) := by
  have hsp : jsToLower " " = " " := by decide
  simp only [quickFindRowVisible, ciIncludes, jsToLower_append, hsp,
    Bool.or_eq_true, beq_iff_eq, jsToLower_eq_empty]
  rw [picklistText_truthy row.picklistText]
  tauto

/-- C7 (counterexample): `A__c__c` ends in the reserved suffix, but stripping
it twice removes both occurrences while stripping once removes only the last,
so stripping is not idempotent on it. -/
theorem c7_strip_suffix_counterexample :
    strEndsWith "A__c__c" "__c" = true ∧
    stripSuffix (stripSuffix "A__c__c") ≠ stripSuffix "A__c__c" := by
  decide

/-- C7 (amended): `stripSuffix` removes exactly one trailing `__c`, so it is
idempotent on every identifier whose once-stripped form no longer ends in the
reserved suffix (in particular on any identifier carrying a single `__c`). -/
theorem c7_strip_suffix_idempotent (x : String)
    (h : strEndsWith (stripSuffix x) "__c" = false) :
    stripSuffix (stripSuffix x) = stripSuffix x :=
  stripSuffix_of_not_endsWith _ h

/-- Witness for C7's amended theorem at `Status__c`. -/
theorem c7_strip_suffix_idempotent_witness :
    strEndsWith (stripSuffix "Status__c") "__c" = false ∧
    stripSuffix (stripSuffix "Status__c") = stripSuffix "Status__c" :=
  ⟨by decide, c7_strip_suffix_idempotent "Status__c" (by decide)⟩

theorem dedupFirstAux_nodup (seen : List String) (l : List String) :
    (dedupFirstAux seen l).Nodup ∧ ∀ x ∈ dedupFirstAux seen l, x ∉ seen := by
  induction l generalizing seen with
  | nil => simp [dedupFirstAux]
  | cons a rest ih =>
    by_cases h : a ∈ seen
    · simpa [dedupFirstAux, h] using ih seen
    · simp only [dedupFirstAux, h, if_neg, ite_false]
      obtain ⟨hn, hs⟩ := ih (a :: seen)
      refine ⟨List.Nodup.cons (fun hmem => (hs a hmem) (List.mem_cons_self a seen)) hn, ?_⟩
      intro x hx
      rcases List.mem_cons.mp hx with rfl | hx'
      · exact h
      · exact fun hxseen => (hs x hx') (List.mem_cons_of_mem _ hxseen)

/-- C4: every candidate-domain ladder is de-duplicated (it is an ordered list
by construction), and for the sandbox-pattern origin
`https://acme--uat.lightning.force.com` the ladder's head is
`https://acme--uat.my.salesforce.com`, with every generic fallback domain
appearing only in the tail (hence after it). -/
theorem c4_domain_fallback_order :
    (∀ o : Origin, (getAllPossibleDomains o).Nodup) ∧
    ((getAllPossibleDomains sandboxOrigin).head? = some "https://acme--uat.my.salesforce.com"
      ∧ "https://my.salesforce.com" ∈ (getAllPossibleDomains sandboxOrigin).tail
      ∧ "https://login.salesforce.com" ∈ (getAllPossibleDomains sandboxOrigin).tail
      ∧ "https://test.salesforce.com" ∈ (getAllPossibleDomains sandboxOrigin).tail
      ∧ "https://salesforce.com" ∈ (getAllPossibleDomains sandboxOrigin).tail
      ∧ "https://cloudforce.com" ∈ (getAllPossibleDomains sandboxOrigin).tail
      ∧ "https://sandbox.my.salesforce.com" ∈ (getAllPossibleDomains sandboxOrigin).tail) := by
  constructor
  · intro o
    exact (dedupFirstAux_nodup [] _).1
  · decide

/-- C8 (counterexample): a `Lookup` field without a value set is categorized
"picklist" by the content script's badge logic, yet the broker's
`updateFieldMetadata` routes it through the full-metadata update path, not the
direct partial update the claim asserts. -/
theorem c8_direct_update_counterexample :
    getFieldCategory "Lookup" = "picklist" ∧
    (chooseUpdatePayload ⟨some "Lookup", none, none, none, [("referenceTo", "Account")]⟩
        ⟨some "updated description", none⟩).isDirect = false := by
  decide

/-- C8 (amended): the broker updates a field via the direct partial-update
call carrying only the changed top-level properties iff its metadata type is
picklist or multipicklist or its metadata carries a value set; every other
field — including lookup-like fields without a value set — is updated by
submitting the full metadata clone with the description/help-text keys
mutated and all other keys preserved. -/
theorem c8_direct_update_category (meta : FieldMetadataJs) (upd : UpdatedData) :
    (jsToLower (meta.type.getD "") = "picklist" ∨ jsToLower (meta.type.getD "") = "multipicklist"
        ∨ meta.valueSet.isSome = true →
      chooseUpdatePayload meta upd = .direct upd.Description upd.InlineHelpText) ∧
    (jsToLower (meta.type.getD "") ≠ "picklist" → jsToLower (meta.type.getD "") ≠ "multipicklist"
        → meta.valueSet = none →
      chooseUpdatePayload meta upd = .full
        { meta with
          description :=
            match upd.Description with
            | some v => some v
            | none => meta.description,
          inlineHelpText :=
            match upd.InlineHelpText with
            | some v => some v
            | none => meta.inlineHelpText }) := by
  constructor
  · intro h
    rcases h with h | h | h <;> simp [chooseUpdatePayload, h]
  · intro h1 h2 h3
    simp [chooseUpdatePayload, h1, h2, h3]

/-- Witness for C8's amended theorem: a picklist field goes direct, a text
field goes through the full-metadata clone. -/
theorem c8_direct_update_category_witness :
    chooseUpdatePayload ⟨some "Picklist", none, none, none, []⟩ ⟨some "d", none⟩ =
      .direct (some "d") none ∧
    chooseUpdatePayload ⟨some "Text", none, none, some "old help", []⟩ ⟨some "d", some "h"⟩ =
      .full ⟨some "Text", none, some "d", some "h", []⟩ :=
  ⟨(c8_direct_update_category _ _).1 (Or.inl (by decide)),
   (c8_direct_update_category ⟨some "Text", none, none, some "old help", []⟩
      ⟨some "d", some "h"⟩).2 (by decide) (by decide) rfl⟩

theorem rowRequestCountSingle_of_fetched (objectName : String) (n : Nat) (row : TableRow)
    (h : row.picklistFetched = true) : rowRequestCountSingle objectName n row = 0 := by
  induction n with
  | zero => rfl
  | succ n ih => simp [rowRequestCountSingle, processRow, h, ih]

theorem rowRequestCount_eq_single (objectName : String) (n : Nat) (rows : List TableRow)
    (i : Nat) :
    rowRequestCount objectName n rows i =
      (match rows[i]? with
       | some r => rowRequestCountSingle objectName n r
       | none => 0) := by
  induction n generalizing rows with
  | zero => cases rows[i]? <;> rfl
  | succ n ih =>
    rw [rowRequestCount, ih]
    have hmap : ((processPicklistRows objectName rows).1)[i]? =
        (rows[i]?).map (fun r => (processRow objectName r).1) := by
      simp [processPicklistRows, List.getElem?_map]
    rw [hmap]
    cases rows[i]? <;> simp [rowRequestCountSingle]

/-- C1: for a row that is attached (present at index `i`), not yet marked
fetched, has at least three cells, and whose type cell contains "picklist",
any number `n ≥ 1` of repeated invocations of `processPicklistRows` over the
same table dispatches exactly one `fetchPicklistValues` request for that row:
the first invocation dispatches and synchronously marks the row fetched, so
every later invocation skips it. -/
theorem c1_at_most_once_fetch (objectName : String) (rows : List TableRow) (i : Nat)
    (r : TableRow) (n : Nat)
    (hrow : rows[i]? = some r)
    (hfetched : r.picklistFetched = false)
    (hcells : 3 ≤ r.cells.length)
    (htype : strIncludes (jsToLower (r.cells.getD 2 "")) "picklist" = true)
    (hn : 1 ≤ n) :
    rowRequestCount objectName n rows i = 1 := by
  rw [rowRequestCount_eq_single, hrow]
  obtain ⟨m, rfl⟩ : ∃ m, n = m + 1 := ⟨n - 1, by omega⟩
  have hlt : ¬ r.cells.length < 3 := by omega
  have htype' : strIncludes (jsToLower (r.cells[2]?.getD "")) "picklist" = true := by
    simpa [List.getD] using htype
  simp [rowRequestCountSingle, processRow, hfetched, hlt, htype',
    rowRequestCountSingle_of_fetched]

/-- Witness for C1: one picklist row, two row-added notifications, one
request. -/
theorem c1_at_most_once_fetch_witness :
    rowRequestCount "Account" 2 [⟨false, ["Industry", "Industry", "Picklist"], none⟩] 0 = 1 :=
  c1_at_most_once_fetch "Account" [⟨false, ["Industry", "Industry", "Picklist"], none⟩] 0
    ⟨false, ["Industry", "Industry", "Picklist"], none⟩ 2 rfl rfl (by decide) (by decide)
    (by decide)

theorem tryDomainsA_none (store : CookieStore) (l : List String)
    (h : ∀ d ∈ l, cookieOk (store.get d) = false) :
    tryDomainsA store l = (l, none) := by
  induction l with
  | nil => rfl
  | cons d rest ih =>
    have hd := h d (List.mem_cons_self d rest)
    simp [tryDomainsA, hd, ih (fun x hx => h x (List.mem_cons_of_mem _ hx))]

/-- C5: when the credential store yields no usable `sid` cookie for any ladder
candidate and the enumerate-all fallback is empty, the broker replies exactly
`{success:false, error:"No session cookie found."}`, leaves its state
untouched, and performs no outbound HTTP call. -/
theorem c5_credential_missing (store : CookieStore) (net : Net) (req : BrokerRequest)
    (st : BrokerState)
    (hall : ∀ d ∈ getAllPossibleDomains req.origin, cookieOk (store.get d) = false)
    (hempty : store.allSid = []) :
    fetchPicklistValuesB store net req st =
      ⟨.err "No session cookie found.", st, []⟩ := by
  have h1 : getSessionCookieB store req.origin st =
      ⟨none, st, getAllPossibleDomains req.origin⟩ := by
    simp [getSessionCookieB, tryDomainsA_none store _ hall, hempty]
  simp [fetchPicklistValuesB, h1]

/-- Witness for C5 on a concrete empty credential store. -/
theorem c5_credential_missing_witness :
    fetchPicklistValuesB ⟨fun _ => none, []⟩ emptyNet accountReq ⟨none⟩ =
      ⟨.err "No session cookie found.", ⟨none⟩, []⟩ :=
  c5_credential_missing ⟨fun _ => none, []⟩ emptyNet accountReq ⟨none⟩
    (fun _ _ => rfl) rfl

theorem tryDomainsA_some_ne (store : CookieStore) (l : List String) (attempts : List String)
    (d v : String) (h : tryDomainsA store l = (attempts, some (d, v))) : v ≠ "" := by
  induction l generalizing attempts with
  | nil => simp [tryDomainsA] at h
  | cons x rest ih =>
    by_cases hx : cookieOk (store.get x) = true
    · rw [tryDomainsA, if_pos hx] at h
      injection h with ha hb
      injection hb with hc
      injection hc with hd hv
      subst hv
      match hg : store.get x with
      | none => rw [hg] at hx; simp [cookieOk] at hx
      | some v' =>
        rw [hg] at hx
        simp only [Option.getD_some]
        simpa [cookieOk] using hx
    · rw [tryDomainsA, if_neg hx] at h
      injection h with ha hb
      exact ih _ (Prod.ext rfl hb)

/-- C6 (counterexample): the store's only token lives on
`acme--uat.sandbox.my.salesforce.com`.  After the first request resolves there
and caches that domain, the second request's credential resolution still tries
`acme--uat.my.salesforce.com` (the deterministic transform at the ladder's
head) first — not the cached domain, contradicting the claim. -/
theorem c6_soft_cache_counterexample :
    (getSessionCookieB sandboxOnlyStore sandboxOrigin ⟨none⟩).state.last =
      some "https://acme--uat.sandbox.my.salesforce.com" ∧
    (getSessionCookieB sandboxOnlyStore sandboxOrigin
        (getSessionCookieB sandboxOnlyStore sandboxOrigin ⟨none⟩).state).attempts.head? =
      some "https://acme--uat.my.salesforce.com" ∧
    ("https://acme--uat.my.salesforce.com" : String) ≠
      "https://acme--uat.sandbox.my.salesforce.com" := by
  decide

theorem tryDomainsA_fst_head (store : CookieStore) (l : List String) :
    (tryDomainsA store l).1.head? = l.head? := by
  cases l with
  | nil => rfl
  | cons d rest =>
    rw [tryDomainsA]
    by_cases h : cookieOk (store.get d) = true
    · rw [if_pos h]
      rfl
    · rw [if_neg h]
      rfl

theorem getSessionCookieB_attempts (store : CookieStore) (o : Origin) (st : BrokerState) :
    (getSessionCookieB store o st).attempts =
      (tryDomainsA store (getAllPossibleDomains o)).1 := by
  rcases h : tryDomainsA store (getAllPossibleDomains o) with ⟨as, res⟩
  cases res with
  | some dv =>
    cases dv
    simp [getSessionCookieB, h]
  | none =>
    cases hs : store.allSid with
    | nil => simp [getSessionCookieB, h, hs]
    | cons c rest =>
      cases hf : (c :: rest).find?
          (fun c2 => strIncludes o.hostname c2.1 || strIncludes c2.1 o.hostname) with
      | some c2 => simp [getSessionCookieB, h, hs, hf]
      | none => simp [getSessionCookieB, h, hs, hf]

theorem getAllPossibleDomains_head (o : Origin) :
    (getAllPossibleDomains o).head? = some (getMySalesforceDomain o) := rfl

/-- C6 (amended): on every request, credential resolution re-walks the
candidate ladder, whose first tried domain is always the deterministic
transform of the request's origin — the cached domain is never moved to the
head of the trial order.  When resolution succeeds via ladder domain `d`, the
broker stores `d` in `lastSuccessfulCookieDomain` and uses `d` as the origin
of the request's outbound API call — the describe call for a standard-field
request and the tooling-query call for a custom-field request alike — in
preference to the deterministic transform. -/
theorem c6_soft_cache_api_origin :
    (∀ (store : CookieStore) (o : Origin) (st : BrokerState),
       (getSessionCookieB store o st).attempts.head? = some (getMySalesforceDomain o)) ∧
    (∀ (store : CookieStore) (net : Net) (req : BrokerRequest) (st : BrokerState)
        (attempts : List String) (d v : String),
       tryDomainsA store (getAllPossibleDomains req.origin) = (attempts, some (d, v)) →
       d ≠ "" →
       (fetchPicklistValuesB store net req st).state.last = some d ∧
       (fetchPicklistValuesB store net req st).calls.head? = some
         (if req.isStandard then describeUrl d req.objectName
          else toolingQueryUrl d (stripSuffix req.fieldApiName) req.objectName)) := by
  refine ⟨?_, ?_⟩
  · intro store o st
    rw [getSessionCookieB_attempts, tryDomainsA_fst_head]
    exact getAllPossibleDomains_head o
  · intro store net req st attempts d v hres hd
    have hv : v ≠ "" := tryDomainsA_some_ne store _ attempts d v hres
    have h1 : getSessionCookieB store req.origin st = ⟨some v, ⟨some d⟩, attempts⟩ := by
      simp [getSessionCookieB, hres]
    have h2 : jsOrElse (some d) (getMySalesforceDomain req.origin) = d := by
      simp [jsOrElse, hd]
    rw [fetchPicklistValuesB, h1]
    simp only [hv]
    by_cases hstd : req.isStandard = true
    · simp only [hstd, if_true]
      cases net.describe req.objectName <;> simp [h2, hv]
    · simp only [hstd, if_false]
      cases net.toolingQuery (stripSuffix req.fieldApiName) req.objectName <;>
        simp [h2, hv, hstd]

/-- Witness for C6's amended theorem: the ladder-head clause at a concrete
store and state, and the cached-API-origin clause on both the standard
(describe) and custom (tooling-query) branches. -/
theorem c6_soft_cache_api_origin_witness :
    (getSessionCookieB accountStore sandboxOrigin ⟨none⟩).attempts.head? =
      some (getMySalesforceDomain sandboxOrigin) ∧
    (fetchPicklistValuesB accountStore accountNet accountReq ⟨none⟩).state.last =
      some "https://acme--uat.my.salesforce.com" ∧
    (fetchPicklistValuesB accountStore accountNet accountReq ⟨none⟩).calls.head? =
      some (describeUrl "https://acme--uat.my.salesforce.com" "Account") ∧
    (fetchPicklistValuesB accountStore accountNet customReq ⟨none⟩).calls.head? =
      some (toolingQueryUrl "https://acme--uat.my.salesforce.com" "Status" "Account") :=
  ⟨c6_soft_cache_api_origin.1 accountStore sandboxOrigin ⟨none⟩,
   (c6_soft_cache_api_origin.2 accountStore accountNet accountReq ⟨none⟩
      ["https://acme--uat.my.salesforce.com"] "https://acme--uat.my.salesforce.com"
      "SESSIONTOKEN" (by decide) (by decide)).1,
   (c6_soft_cache_api_origin.2 accountStore accountNet accountReq ⟨none⟩
      ["https://acme--uat.my.salesforce.com"] "https://acme--uat.my.salesforce.com"
      "SESSIONTOKEN" (by decide) (by decide)).2,
   (c6_soft_cache_api_origin.2 accountStore accountNet customReq ⟨none⟩
      ["https://acme--uat.my.salesforce.com"] "https://acme--uat.my.salesforce.com"
      "SESSIONTOKEN" (by decide) (by decide)).2⟩

/-- C3: the broker resolves a standard-field request by fetching the object
describe and computing `standardPicklistText`; that computation locates the
field by case-insensitive exact identifier match, lower-cases the enumerated
values' labels and joins them with `", "`, and yields `""` when the field is
absent or carries no enumerated values; on the `Account`/`Industry` scenario
with labels `Banking` and `Retail` the reply is success with payload
`"banking, retail"`. -/
theorem c3_standard_field_resolution :
    (∀ (store : CookieStore) (net : Net) (req : BrokerRequest) (st : BrokerState)
        (sid : String) (fields : List DescribeField),
       req.isStandard = true →
       (getSessionCookieB store req.origin st).sid = some sid →
       sid ≠ "" →
       net.describe req.objectName = Except.ok fields →
       (fetchPicklistValuesB store net req st).response =
         .ok (standardPicklistText fields req.fieldApiName)) ∧
    (∀ (fields : List DescribeField) (name : String),
       fields.find? (fun f => jsToLower f.name == jsToLower name) = none →
       standardPicklistText fields name = "") ∧
    (∀ (fields : List DescribeField) (name : String) (f : DescribeField),
       fields.find? (fun f => jsToLower f.name == jsToLower name) = some f →
       f.picklistValues = none ∨ f.picklistValues = some [] →
       standardPicklistText fields name = "") ∧
    (∀ (fields : List DescribeField) (name : String) (f : DescribeField)
        (vs : List PicklistValueJs),
       fields.find? (fun f => jsToLower f.name == jsToLower name) = some f →
       f.picklistValues = some vs →
       standardPicklistText fields name =
         jsJoin ", " (vs.map (fun v => jsToLower (v.label.getD "")))) ∧
    (fetchPicklistValuesB accountStore accountNet accountReq ⟨none⟩).response =
      .ok "banking, retail" := by
  refine ⟨?_, ?_, ?_, ?_, by decide⟩
  · intro store net req st sid fields hstd hsid hne hnet
    rw [fetchPicklistValuesB, hsid]
    simp only [hne, hstd, hnet]
    simp [hne]
  · intro fields name hfind
    simp [standardPicklistText, hfind]
  · intro fields name f hfind hpv
    rcases hpv with h | h <;> simp [standardPicklistText, hfind, h, jsJoin]
  · intro fields name f vs hfind hpv
    simp [standardPicklistText, hfind, hpv]

/-- Witness for C3 at the scenario payload. -/
theorem c3_standard_field_resolution_witness :
    standardPicklistText [⟨"Name", none⟩] "Industry" = "" ∧
    standardPicklistText [⟨"Industry", some [⟨some "Banking"⟩, ⟨some "Retail"⟩]⟩] "Industry" =
      jsJoin ", " ([(⟨some "Banking"⟩ : PicklistValueJs), ⟨some "Retail"⟩].map
        (fun v => jsToLower (v.label.getD ""))) ∧
    (fetchPicklistValuesB accountStore accountNet accountReq ⟨none⟩).response =
      .ok (standardPicklistText [⟨"Industry", some [⟨some "Banking"⟩, ⟨some "Retail"⟩]⟩]
        "Industry") :=
  ⟨c3_standard_field_resolution.2.1 _ _ (by decide),
   c3_standard_field_resolution.2.2.2.1
     [⟨"Industry", some [⟨some "Banking"⟩, ⟨some "Retail"⟩]⟩] "Industry"
     ⟨"Industry", some [⟨some "Banking"⟩, ⟨some "Retail"⟩]⟩
     [⟨some "Banking"⟩, ⟨some "Retail"⟩] (by decide) rfl,
   c3_standard_field_resolution.1 accountStore accountNet accountReq ⟨none⟩
     "SESSIONTOKEN" [⟨"Industry", some [⟨some "Banking"⟩, ⟨some "Retail"⟩]⟩]
     rfl (by decide) (by decide) rfl⟩

theorem runBulkLoop_eq_map (doUpdate : String → UpdatedData → Bool × Option String)
    (nameMap : String → Option String) (updates : List (String × UpdatedData)) :
    runBulkLoop doUpdate nameMap updates = updates.map (fun p =>
      ⟨p.1, jsOrElse (nameMap p.1) p.1, (doUpdate p.1 p.2).1, (doUpdate p.1 p.2).2⟩) := by
  induction updates with
  | nil => rfl
  | cons p rest ih =>
    cases p
    simp [runBulkLoop, ih]

/-- C9: every field of a bulk update is attempted independently — the results
array is the pointwise image of the updates, each entry depending only on its
own field's outcome, so one field's failure neither aborts the batch nor
undoes another field's applied update; when at least one field fails the
reply carries `successCount`/`failureCount` equal to the respective tallies
and a `formattedErrorMessage` listing the per-field errors; in the concrete
one-failure/one-success batch the reply is `successCount=1, failureCount=1`
and the succeeding field's update is among those applied. -/
theorem c9_batch_independence :
    (∀ (doUpdate : String → UpdatedData → Bool × Option String)
        (nameMap : String → Option String) (updates : List (String × UpdatedData)),
       (bulkUpdateFields doUpdate nameMap updates).1 = updates.map (fun p =>
         ⟨p.1, jsOrElse (nameMap p.1) p.1, (doUpdate p.1 p.2).1, (doUpdate p.1 p.2).2⟩)) ∧
    (∀ (doUpdate : String → UpdatedData → Bool × Option String)
        (nameMap : String → Option String) (updates : List (String × UpdatedData)),
       ((bulkUpdateFields doUpdate nameMap updates).1.filter (fun r => !r.success)) ≠ [] →
       (bulkUpdateFields doUpdate nameMap updates).2.successCountOf =
         some ((bulkUpdateFields doUpdate nameMap updates).1.filter (fun r => r.success)).length ∧
       (bulkUpdateFields doUpdate nameMap updates).2.failureCountOf =
         some ((bulkUpdateFields doUpdate nameMap updates).1.filter (fun r => !r.success)).length ∧
       (bulkUpdateFields doUpdate nameMap updates).2.formattedOf =
         some (formatBulkErrors
           ((bulkUpdateFields doUpdate nameMap updates).1.filter (fun r => !r.success)))) ∧
    ((bulkUpdateFields demoUpdater (fun _ => none)
        [("A", ⟨some "dA", none⟩), ("B", ⟨some "dB", none⟩)]).2.successCountOf = some 1 ∧
     (bulkUpdateFields demoUpdater (fun _ => none)
        [("A", ⟨some "dA", none⟩), ("B", ⟨some "dB", none⟩)]).2.failureCountOf = some 1 ∧
     "B" ∈ ((bulkUpdateFields demoUpdater (fun _ => none)
        [("A", ⟨some "dA", none⟩), ("B", ⟨some "dB", none⟩)]).1.filter
          (fun r => r.success)).map (fun r => r.fieldId)) := by
  refine ⟨?_, ?_, by decide⟩
  · intro doUpdate nameMap updates
    exact runBulkLoop_eq_map doUpdate nameMap updates
  · intro doUpdate nameMap updates hfail
    have hlen : ((runBulkLoop doUpdate nameMap updates).filter (fun r => !r.success)).length ≠ 0 := by
      simpa [bulkUpdateFields, List.length_eq_zero] using hfail
    simp [bulkUpdateFields, bulkUpdateResponse, hlen, BulkResponse.successCountOf,
      BulkResponse.failureCountOf, BulkResponse.formattedOf]

/-- Witness for C9's aggregate clause on the one-failure/one-success batch. -/
theorem c9_batch_independence_witness :
    (bulkUpdateFields demoUpdater (fun _ => none)
        [("A", ⟨some "dA", none⟩), ("B", ⟨some "dB", none⟩)]).2.formattedOf =
      some (formatBulkErrors
        ((bulkUpdateFields demoUpdater (fun _ => none)
          [("A", ⟨some "dA", none⟩), ("B", ⟨some "dB", none⟩)]).1.filter
            (fun r => !r.success))) :=
  (c9_batch_independence.2.1 demoUpdater (fun _ => none)
    [("A", ⟨some "dA", none⟩), ("B", ⟨some "dB", none⟩)] (by decide)).2.2

theorem natDigitsRev_small (n : Nat) (h : n < 10) : natDigitsRev n = [digitChar n] := by
  rw [natDigitsRev, dif_pos h]

theorem natDigitsRev_big (n : Nat) (h : ¬ n < 10) :
    natDigitsRev n = digitChar (n % 10) :: natDigitsRev (n / 10) := by
  rw [natDigitsRev, dif_neg h]

theorem natDigitsRev_ne_nil (n : Nat) : natDigitsRev n ≠ [] := by
  by_cases h : n < 10
  · rw [natDigitsRev_small n h]; simp
  · rw [natDigitsRev_big n h]; simp

theorem natDigitsRev_len_pos (n : Nat) : 1 ≤ (natDigitsRev n).length := by
  cases h : natDigitsRev n with
  | nil => exact absurd h (natDigitsRev_ne_nil n)
  | cons a l => simp

theorem le_natDigitsRev_len (L : Nat) : ∀ n, 10 ^ L ≤ n → L + 1 ≤ (natDigitsRev n).length := by
  induction L with
  | zero => intro n _; exact natDigitsRev_len_pos n
  | succ K ih =>
    intro n hn
    have h10 : ¬ n < 10 := by
      have h1 : (10:Nat) ≤ 10 ^ (K + 1) :=
        (pow_one (10:Nat)) ▸ Nat.pow_le_pow_right (by norm_num) (by omega)
      omega
    rw [natDigitsRev_big n h10]
    have hdiv : 10 ^ K ≤ n / 10 := by
      rw [Nat.le_div_iff_mul_le (by norm_num)]
      calc 10 ^ K * 10 = 10 ^ (K + 1) := (pow_succ 10 K).symm
        _ ≤ n := hn
    have := ih (n / 10) hdiv
    simp only [List.length_cons]
    omega

theorem natDigitsRev_len_le (L : Nat) : ∀ n, n < 10 ^ (L + 1) → (natDigitsRev n).length ≤ L + 1 := by
  induction L with
  | zero =>
    intro n hn
    rw [natDigitsRev_small n (by simpa using hn)]
    simp
  | succ K ih =>
    intro n hn
    by_cases h10 : n < 10
    · rw [natDigitsRev_small n h10]; simp
    · rw [natDigitsRev_big n h10]
      have hdiv : n / 10 < 10 ^ (K + 1) := by
        rw [Nat.div_lt_iff_lt_mul (by norm_num)]
        calc n < 10 ^ (K + 2) := hn
          _ = 10 ^ (K + 1) * 10 := pow_succ 10 (K + 1)
      have := ih (n / 10) hdiv
      simp only [List.length_cons]
      omega

theorem natDigitsRev_len_mono : ∀ m n, n ≤ m → (natDigitsRev n).length ≤ (natDigitsRev m).length := by
  intro m
  induction m using Nat.strong_induction_on with
  | _ m ih =>
    intro n hnm
    by_cases hn : n < 10
    · rw [natDigitsRev_small n hn]
      have := natDigitsRev_len_pos m
      simp only [List.length_singleton]
      omega
    · have hm : ¬ m < 10 := by omega
      rw [natDigitsRev_big n hn, natDigitsRev_big m hm]
      simp only [List.length_cons]
      have := ih (m / 10) (Nat.div_lt_self (by omega) (by omega)) (n / 10)
        (Nat.div_le_div_right hnm)
      omega

theorem digitChar_inj_lt : ∀ i, i < 10 → ∀ j, j < 10 → digitChar i = digitChar j → i = j := by
  decide

theorem natDigitsRev_inj : ∀ n m, natDigitsRev n = natDigitsRev m → n = m := by
  intro n
  induction n using Nat.strong_induction_on with
  | _ n ih =>
    intro m h
    by_cases hn : n < 10 <;> by_cases hm : m < 10
    · rw [natDigitsRev_small n hn, natDigitsRev_small m hm] at h
      have hdig : digitChar n = digitChar m := (List.cons.inj h).1
      exact digitChar_inj_lt n hn m hm hdig
    · exfalso
      rw [natDigitsRev_small n hn, natDigitsRev_big m hm] at h
      have hlen := congrArg List.length h
      rw [List.length_singleton, List.length_cons] at hlen
      have hp := natDigitsRev_len_pos (m / 10)
      omega
    · exfalso
      rw [natDigitsRev_big n hn, natDigitsRev_small m hm] at h
      have hlen := congrArg List.length h
      rw [List.length_cons, List.length_singleton] at hlen
      have hp := natDigitsRev_len_pos (n / 10)
      omega
    · rw [natDigitsRev_big n hn, natDigitsRev_big m hm] at h
      obtain ⟨h1, h2⟩ := List.cons.inj h
      have hmod : n % 10 = m % 10 :=
        digitChar_inj_lt (n % 10) (Nat.mod_lt _ (by norm_num)) (m % 10)
          (Nat.mod_lt _ (by norm_num)) h1
      have hdiv : n / 10 = m / 10 :=
        ih (n / 10) (Nat.div_lt_self (by omega) (by omega)) (m / 10) h2
      omega

theorem jsNatToString_inj : ∀ n m, jsNatToString n = jsNatToString m → n = m := by
  intro n m h
  have hd : (natDigitsRev n).reverse = (natDigitsRev m).reverse := congrArg String.data h
  exact natDigitsRev_inj n m (by simpa using congrArg List.reverse hd)

theorem jsNatToString_length (n : Nat) :
    (jsNatToString n).length = (natDigitsRev n).length := by
  show (natDigitsRev n).reverse.length = (natDigitsRev n).length
  exact List.length_reverse _

theorem len_le_maxStrLen (s : String) (l : List String) (h : s ∈ l) :
    s.length ≤ maxStrLen l := by
  induction l with
  | nil => cases h
  | cons a rest ih =>
    rcases List.mem_cons.mp h with rfl | h'
    · exact le_max_left _ _
    · exact le_trans (ih h') (le_max_right _ _)

theorem strLength_append (a b : String) : (a ++ b).length = a.length + b.length := by
  show (a ++ b).data.length = a.data.length + b.data.length
  rw [String.data_append]
  exact List.length_append _ _

theorem candName_length_le (sheet : String) (k : Nat)
    (h : (jsNatToString k).length ≤ 31) : (candName sheet k).length ≤ 31 := by
  rw [candName, strLength_append]
  have htake : (jsSubstringTo sheet (31 - (jsNatToString k).length)).length ≤
      31 - (jsNatToString k).length := by
    show (sheet.data.take _).length ≤ _
    rw [List.length_take]
    exact min_le_left _ _
  omega

theorem candName_length_ge (sheet : String) (k : Nat) :
    (jsNatToString k).length ≤ (candName sheet k).length := by
  rw [candName, strLength_append]
  omega

theorem uniqueLoop_not_mem (sheet : String) (e : List String) (fuel : Nat) (u : String)
    (suffix : Nat) (h : u ∉ e) : uniqueLoop sheet e fuel u suffix = u := by
  cases fuel with
  | zero => rfl
  | succ f => simp [uniqueLoop, h]

theorem uniqueLoop_inv (sheet : String) (e : List String) :
    ∀ (fuel suffix : Nat) (u : String), 1 ≤ suffix →
      suffix + fuel = sheetFuel e + 1 →
      (suffix = 1 ∨ u = candName sheet (suffix - 1)) →
      uniqueLoop sheet e fuel u suffix ∉ e ∧
      ∀ extra, uniqueLoop sheet e (fuel + extra) u suffix = uniqueLoop sheet e fuel u suffix := by
  intro fuel
  induction fuel with
  | zero =>
    intro suffix u h1 hsum hor
    have hsf : sheetFuel e = 10 ^ max 31 (maxStrLen e) + 2 := rfl
    have hpos : 0 < 10 ^ max 31 (maxStrLen e) := pow_pos (by norm_num) _
    have hsuf : suffix = 10 ^ max 31 (maxStrLen e) + 3 := by omega
    have hu : u = candName sheet (suffix - 1) := by
      rcases hor with h | h
      · omega
      · exact h
    have hge : 10 ^ max 31 (maxStrLen e) ≤ suffix - 1 := by omega
    have hlen1 : max 31 (maxStrLen e) + 1 ≤ (jsNatToString (suffix - 1)).length := by
      rw [jsNatToString_length]
      exact le_natDigitsRev_len _ _ hge
    have hlen2 : max 31 (maxStrLen e) + 1 ≤ u.length := by
      rw [hu]
      exact le_trans hlen1 (candName_length_ge sheet (suffix - 1))
    have hnm : u ∉ e := by
      intro hmem
      have hle := len_le_maxStrLen u e hmem
      have hmax := le_max_right 31 (maxStrLen e)
      omega
    refine ⟨hnm, ?_⟩
    intro extra
    rw [Nat.zero_add, uniqueLoop_not_mem sheet e extra u suffix hnm]
    rfl
  | succ fuel ih =>
    intro suffix u h1 hsum hor
    by_cases hu : u ∈ e
    · have hrec := ih (suffix + 1) (candName sheet suffix) (by omega) (by omega)
        (Or.inr (by simp))
      refine ⟨?_, ?_⟩
      · simp only [uniqueLoop, if_pos hu]
        exact hrec.1
      · intro extra
        have he : fuel + 1 + extra = (fuel + extra) + 1 := by omega
        rw [he]
        simp only [uniqueLoop, if_pos hu]
        exact hrec.2 extra
    · refine ⟨?_, ?_⟩
      · rw [uniqueLoop_not_mem sheet e (fuel + 1) u suffix hu]
        exact hu
      · intro extra
        rw [uniqueLoop_not_mem sheet e (fuel + 1 + extra) u suffix hu,
            uniqueLoop_not_mem sheet e (fuel + 1) u suffix hu]

theorem uniqueLoop_len_le (sheet : String) (e : List String) (k₀ : Nat)
    (hk : candName sheet k₀ ∉ e) (hd : (jsNatToString k₀).length ≤ 31) :
    ∀ (fuel suffix : Nat) (u : String),
      u.length ≤ 31 → suffix ≤ k₀ → k₀ - suffix < fuel →
      (uniqueLoop sheet e fuel u suffix).length ≤ 31 := by
  intro fuel
  induction fuel with
  | zero =>
    intro suffix u _ _ hf
    omega
  | succ fuel ih =>
    intro suffix u hu hsk hf
    by_cases hmem : u ∈ e
    · simp only [uniqueLoop, if_pos hmem]
      have hcand : (candName sheet suffix).length ≤ 31 := by
        apply candName_length_le
        calc (jsNatToString suffix).length ≤ (jsNatToString k₀).length := by
              rw [jsNatToString_length, jsNatToString_length]
              exact natDigitsRev_len_mono k₀ suffix hsk
          _ ≤ 31 := hd
      by_cases heq : suffix = k₀
      · subst heq
        rw [uniqueLoop_not_mem sheet e fuel _ _ hk]
        exact hcand
      · exact ih (suffix + 1) (candName sheet suffix) hcand (by omega) (by omega)
    · rw [uniqueLoop_not_mem sheet e (fuel + 1) u suffix hmem]
      exact hu

theorem exists_short_cand_not_mem (sheet : String) (e : List String)
    (h : e.length < 9 * 10 ^ 30) :
    ∃ k₀, 1 ≤ k₀ ∧ k₀ < 10 ^ 31 ∧ (jsNatToString k₀).length ≤ 31 ∧
      candName sheet k₀ ∉ e := by
  by_contra hc
  push_neg at hc
  have hlen31 : ∀ k ∈ Finset.Ico (10 ^ 30) (10 ^ 31), (jsNatToString k).length = 31 := by
    intro k hk
    rw [Finset.mem_Ico] at hk
    have hge : 31 ≤ (jsNatToString k).length := by
      rw [jsNatToString_length]
      have := le_natDigitsRev_len 30 k hk.1
      omega
    have hle : (jsNatToString k).length ≤ 31 := by
      rw [jsNatToString_length]
      exact natDigitsRev_len_le 30 k hk.2
    omega
  have hmem : ∀ k ∈ Finset.Ico (10 ^ 30) (10 ^ 31), candName sheet k ∈ e := by
    intro k hk
    rw [Finset.mem_Ico] at hk
    have h1 : (1:Nat) ≤ k := le_trans (Nat.one_le_pow 30 10 (by norm_num)) hk.1
    exact hc k h1 hk.2 (le_of_eq (hlen31 k (Finset.mem_Ico.mpr hk)))
  have hcand31 : ∀ k ∈ Finset.Ico (10 ^ 30) (10 ^ 31),
      candName sheet k = jsNatToString k := by
    intro k hk
    rw [candName, hlen31 k hk]
    have : (31:Nat) - 31 = 0 := by omega
    rw [this]
    apply String.ext
    rw [String.data_append]
    show List.take 0 sheet.data ++ _ = _
    rw [List.take_zero, List.nil_append]
  have hsub : (Finset.Ico (10 ^ 30) (10 ^ 31)).image jsNatToString ⊆ e.toFinset := by
    intro s hs
    rw [Finset.mem_image] at hs
    obtain ⟨k, hk, rfl⟩ := hs
    rw [List.mem_toFinset, ← hcand31 k hk]
    exact hmem k hk
  have hcard1 : ((Finset.Ico (10 ^ 30) (10 ^ 31)).image jsNatToString).card =
      (Finset.Ico ((10:Nat) ^ 30) (10 ^ 31)).card := by
    apply Finset.card_image_of_injOn
    intro a _ b _ hab
    exact jsNatToString_inj a b hab
  have hcard2 : (Finset.Ico ((10:Nat) ^ 30) (10 ^ 31)).card = 9 * 10 ^ 30 := by
    rw [Nat.card_Ico]
    norm_num
  have hfin : (9:Nat) * 10 ^ 30 ≤ e.toFinset.card := by
    calc (9:Nat) * 10 ^ 30 = ((Finset.Ico ((10:Nat) ^ 30) (10 ^ 31)).image jsNatToString).card := by
          rw [hcard1, hcard2]
      _ ≤ e.toFinset.card := Finset.card_le_card hsub
  have := e.toFinset_card_le
  omega

/-- C10: `getUniqueSheetName` terminates for every input — its result does
not depend on the embedded iteration bound (adding any amount of extra fuel
leaves it unchanged, which is the termination of the source's unbounded
`while` loop) — and never returns a member of `existingNames`; and for every
`existingNames` the source's runtime can hold (a JS array has fewer than
`2^32` elements) a base name of length at most 31 yields a name of length at
most 31.  The proof covers any list with fewer than `9 * 10^30` entries, far
beyond the runtime cap: the loop always exits at a suffix of at most 31
digits, whose truncated candidate fits in 31 characters. -/
theorem c10_unique_sheet_name (sheetName : String) (existingNames : List String) :
    getUniqueSheetName sheetName existingNames ∉ existingNames ∧
    (∀ extra,
      uniqueLoop sheetName existingNames (sheetFuel existingNames + extra) sheetName 1 =
        getUniqueSheetName sheetName existingNames) ∧
    (sheetName.length ≤ 31 → existingNames.length < 2 ^ 32 →
      (getUniqueSheetName sheetName existingNames).length ≤ 31) := by
  obtain ⟨hnm, hstab⟩ := uniqueLoop_inv sheetName existingNames (sheetFuel existingNames) 1
    sheetName le_rfl (by omega) (Or.inl rfl)
  refine ⟨hnm, hstab, ?_⟩
  intro hlen hcap
  have hsize : existingNames.length < 9 * 10 ^ 30 := by omega
  obtain ⟨k₀, hk1, hk2, hk3, hk4⟩ := exists_short_cand_not_mem sheetName existingNames hsize
  apply uniqueLoop_len_le sheetName existingNames k₀ hk4 hk3 (sheetFuel existingNames) 1
    sheetName hlen hk1
  have hb : (10:Nat) ^ 31 ≤ 10 ^ max 31 (maxStrLen existingNames) :=
    Nat.pow_le_pow_right (by norm_num) (le_max_left _ _)
  have hsf : sheetFuel existingNames = 10 ^ max 31 (maxStrLen existingNames) + 2 := rfl
  omega

/-- Witness for C10 at `Sheet1` against `["Sheet1"]`. -/
theorem c10_unique_sheet_name_witness :
    getUniqueSheetName "Sheet1" ["Sheet1"] ∉ ["Sheet1"] ∧
    (getUniqueSheetName "Sheet1" ["Sheet1"]).length ≤ 31 :=
  ⟨(c10_unique_sheet_name "Sheet1" ["Sheet1"]).1,
   (c10_unique_sheet_name "Sheet1" ["Sheet1"]).2.2 (by decide) (by norm_num)⟩

end SfSearch
